import Mathlib

/-!
pgtozod — verification of the type-mapping / default-translation core.

Shallow embedding of the core of `pgtozod` (src/index.js and the second
entry-point variant embedded in src/db.js).  The repository introspects
PostgreSQL column metadata and emits zod schema source text.  We model the
pure core: identifier transformation, the enum registry, the default-value
parser, the two type mappers, and the column-schema assembler, and prove the
specification claims about them.

Modelling conventions:
* JS strings are Lean `String`s; all computation is done on `String.data`
  (`List Char`) with structural recursion so that the kernel can evaluate
  every definition (core `String` routines such as `trim`/`toLower` use
  well-founded recursion and are avoided).
* JS `undefined` results are `Option.none`; a thrown JS exception (the
  `ReferenceError` of reading an undeclared variable, the `TypeError` of
  calling the nonexistent `chalk.warn`) is `Except.error`, and its
  propagation out of a `forEach` (aborting the table) is the error case of
  an `Except`-valued loop.
* JS `Array.prototype.sort` with an order-consistent comparator is stable;
  it is modelled by `List.insertionSort`.  `localeCompare` is modelled by
  ICU-root collation sort keys (case-folded primary weights, then case
  weights with lowercase first), exact for ASCII-letter keys — see
  `localeSortKey`.
-/

namespace Pgtozod

/-! ## Generic character-list helpers (JS string primitives) -/

/-- JS `Array.prototype.join(sep)` for strings. -/
def joinWith (sep : String) : List String → String
  | [] => ""
  | [x] => x
  | x :: xs => x ++ sep ++ joinWith sep xs

/-- Prefix test on raw character lists (JS `String.prototype.startsWith`). -/
def isPrefixList : List Char → List Char → Bool
  | [], _ => true
  | _ :: _, [] => false
  | a :: ps, b :: ls => a == b && isPrefixList ps ls

/-- JS `String.prototype.startsWith`. -/
def strStartsWith (s pat : String) : Bool := isPrefixList pat.data s.data

/-- JS `String.prototype.endsWith`. -/
def strEndsWith (s pat : String) : Bool := isPrefixList pat.data.reverse s.data.reverse

/-- JS `String.prototype.slice(0, -n)` (used as `slice(0, -2)` in the source). -/
def dropRightStr (s : String) (n : Nat) : String :=
  String.mk (s.data.take (s.data.length - n))

/-- JS `String.prototype.toLowerCase` (the source only lowercases ASCII. ). -/
def toLowerStr (s : String) : String := String.mk (s.data.map Char.toLower)

/-- JS `String.prototype.trim`: strip leading and trailing whitespace. -/
def trimChars (l : List Char) : List Char :=
  ((l.dropWhile Char.isWhitespace).reverse.dropWhile Char.isWhitespace).reverse

/-- JS `String.prototype.split(sep)` for a one-character separator; keeps
empty pieces exactly as JS does (`"'a'::t".split("'") = ["", "a", "::t"]`). -/
def splitListOn (sep : Char) : List Char → List (List Char)
  | [] => [[]]
  | c :: cs =>
    if c == sep then [] :: splitListOn sep cs
    else
      match splitListOn sep cs with
      | [] => [[c]]
      | h :: t => (c :: h) :: t

/-- JS regex `\w` (word character): `[A-Za-z0-9_]`. -/
def isWordChar (c : Char) : Bool := c.isAlphanum || c == '_'

/-! ## Identifier transformer (src/index.js lines 19-31, 296-298) -/

/-- Source `capitalizeFirstLetter` (index.js lines 296-298):
`string.charAt(0).toUpperCase() + string.slice(1)`. -/
def capitalizeFirstLetter (s : String) : String :=
  match s.data with
  | [] => ""
  | c :: cs => String.mk (c.toUpper :: cs)

/-- Character-list body of `camelCase`: the global regex replace
`str.replace(/_([a-z])/g, g => g[1].toUpperCase())`, scanning left to right
over non-overlapping matches. -/
def camelCaseList : List Char → List Char
  | [] => []
  | ['_'] => ['_']
  | '_' :: c :: rest =>
    if c.isLower then c.toUpper :: camelCaseList rest
    else '_' :: camelCaseList (c :: rest)
  | c :: rest => c :: camelCaseList rest

/-- Source `camelCase` (index.js lines 19-23). -/
def camelCase (str : String) : String := String.mk (camelCaseList str.data)

/-- Source `getReadableNameFromSnakeCase` (index.js lines 25-31): if the
lowercased name ends with `"id"` drop the last two characters, then trim,
split on `'_'`, capitalize each piece and join with single spaces. -/
def getReadableNameFromSnakeCase (snakeCaseName : String) : String :=
  let nameWithoutId :=
    if strEndsWith (toLowerStr snakeCaseName) "id" then dropRightStr snakeCaseName 2
    else snakeCaseName
  joinWith " "
    ((splitListOn '_' (trimChars nameWithoutId.data)).map
      (fun w => capitalizeFirstLetter (String.mk w)))

/-! ## Enum registry (src/index.js lines 44-61)

`getEnumTypes` builds a JS object mapping enum type name to the ordered list
of labels.  JS objects with non-numeric string keys preserve insertion
order, so the registry is modelled as an association list; `enums[k]` is
`lookup`, and `for (const k in enums)` iterates in list order. -/

abbrev Enums := List (String × List String)

/-- JS `enums[udt_name]` (property lookup; `none` = `undefined`). -/
def enumLookup (enums : Enums) (k : String) : Option (List String) :=
  (enums.find? (fun p => p.1 == k)).map (·.2)

/-! ## Default-value parser (src/index.js lines 63-147) -/

/-- Result value of `parseDefaultValue`.  The source returns a JS number,
boolean or string; `undefined` (unparseable) is `Option.none` at the call
site.  For the numeric cases the source returns `Number(text)` where `text`
is the regex capture; we carry the captured text itself — the JS number is a
function of it, and no theorem depends on JS number-to-string formatting. -/
inductive DefaultVal where
  | num (text : String)
  | bool (b : Bool)
  | str (s : String)
deriving DecidableEq

/-- Interpolation of the parsed default into `.default(${v})` (template
literal in index.js line 198).  Numeric values are rendered as their
captured text; JS would print `String(Number(text))`, which agrees on
canonical numerals such as `5` or `1.5` (no theorem inspects a rendered
numeric default). -/
def DefaultVal.render : DefaultVal → String
  | .num s => s
  | .bool b => if b then "true" else "false"
  | .str s => s

/-- Mantissa of the JS number regex: `\d*\.?\d+` — digits, or digits, a dot
and at least one digit. -/
def mantissaOk (cs : List Char) : Bool :=
  match cs.dropWhile Char.isDigit with
  | [] => !(cs.takeWhile Char.isDigit).isEmpty
  | d :: rest => d == '.' && !rest.isEmpty && rest.all Char.isDigit

/-- Strip one optional leading sign (`[-+]?`). -/
def stripSign : List Char → List Char
  | [] => []
  | c :: rest => if c == '-' || c == '+' then rest else c :: rest

/-- Exponent tail of the JS number regex after `[eE]`: `[-+]?\d+`. -/
def expTailOk (cs : List Char) : Bool :=
  let r := stripSign cs
  !r.isEmpty && r.all Char.isDigit

/-- Negation of the exponent-introducing characters `[eE]`. -/
def notExpChar (c : Char) : Bool := !(c == 'e' || c == 'E')

/-- Whole-string match of the JS number regex
`[-+]?\d*\.?\d+(?:[eE][-+]?\d+)?` (index.js lines 70-79): optional sign,
mantissa, optional exponent introduced by the first `e`/`E`. -/
def numberListOk (cs0 : List Char) : Bool :=
  match (stripSign cs0).dropWhile notExpChar with
  | [] => mantissaOk ((stripSign cs0).takeWhile notExpChar)
  | _ :: rest => mantissaOk ((stripSign cs0).takeWhile notExpChar) && expTailOk rest

/-- Whole-string match with capture of the regex
`^'([-+]?\d*\.?\d+(?:[eE][-+]?\d+)?)'::\w+$` (index.js lines 70-72).  The
captured group cannot contain a quote, so any match splits the input at the
first quote after position 0. -/
def matchQuotedNumberList (l : List Char) : Option (List Char) :=
  match l with
  | c :: rest =>
    if c == '\'' then
      let body := rest.takeWhile (fun x => x != '\'')
      match rest.dropWhile (fun x => x != '\'') with
      | _ :: tail =>
        match tail with
        | c1 :: c2 :: w =>
          if c1 == ':' && c2 == ':' then
            if numberListOk body && !w.isEmpty && w.all isWordChar then some body
            else none
          else none
        | _ => none
      | [] => none
    else none
  | [] => none

/-- Whole-string match with capture of the cast-literal regexes
`^'(<body>)'::<suffix>$` used for date and timestamp defaults (index.js
lines 99-104 and 117-130); `bodyOk` checks the captured shape, which never
contains a quote. -/
def matchCastLitList (bodyOk : List Char → Bool) (suffix : List Char)
    (l : List Char) : Option (List Char) :=
  match l with
  | c :: rest =>
    if c == '\'' then
      match rest.dropWhile (fun x => x != '\'') with
      | _ :: tail =>
        if bodyOk (rest.takeWhile (fun x => x != '\'')) && tail == suffix then
          some (rest.takeWhile (fun x => x != '\''))
        else none
      | [] => none
    else none
  | [] => none

/-- Shape `\d{4}-\d{2}-\d{2}` of a captured date body. -/
def isDateBody : List Char → Bool
  | [a, b, c, d, h1, e, f, h2, g, h] =>
    h1 == '-' && h2 == '-' && [a, b, c, d, e, f, g, h].all Char.isDigit
  | _ => false

/-- Shape `\d{4}-\d{2}-\d{2} \d{2}:\d{2}:\d{2}` of a captured timestamp
body. -/
def isTsBody : List Char → Bool
  | [a, b, c, d, h1, e, f, h2, g, h, sp, i, j, k1, k, l, k2, m, n] =>
    h1 == '-' && h2 == '-' && sp == ' ' && k1 == ':' && k2 == ':' &&
      [a, b, c, d, e, f, g, h, i, j, k, l, m, n].all Char.isDigit
  | _ => false

/-- The regex replace `value.replace(/^'(.*)'$/, "$1")` of the
character-varying / text case (index.js line 91): if the whole value is
wrapped in single quotes (and the greedy dot — which does not match line
terminators — covers the middle), keep only the middle, else keep the value
unchanged. -/
def stripOuterQuotes (v : String) : String :=
  let l := v.data
  if 2 ≤ l.length && l.head? == some '\'' && l.getLast? == some '\'' &&
      ((l.drop 1).dropLast.all (fun c => c != '\n' && c != '\r')) then
    String.mk ((l.drop 1).dropLast)
  else v

/-- The five `case` labels of the numeric arm of the `switch` (index.js
lines 65-69). -/
def numericFamily : List String :=
  ["integer", "bigint", "numeric", "smallint", "double precision"]

/-- Source `parseDefaultValue` (index.js lines 63-147).  `none` models the
JS `undefined` returned for an unparseable default (after a console
warning).  In the final (enum) arm, `value.split("'")[1]` is `undefined`
when the value holds no quote, and the template literal stringifies it as
`"undefined"`. -/
def parseDefaultValue (value : String) (dataType : String) (enums : Enums) :
    Option DefaultVal :=
  if numericFamily.contains dataType then
    match matchQuotedNumberList value.data with
    | some n => some (.num (String.mk n))
    | none =>
      if numberListOk value.data then some (.num value) else none
  else if dataType == "boolean" then
    some (.bool (value == "true"))
  else if dataType == "character varying" || dataType == "text" then
    some (.str ("'" ++ stripOuterQuotes value ++ "'"))
  else if dataType == "date" then
    let lv := toLowerStr value
    if lv == "now()::date" || lv == "current_date" || lv == "('now'::text)::date" then
      some (.str "new Date()")
    else
      match matchCastLitList isDateBody "::date".data lv.data with
      | some d => some (.str ("new Date('" ++ String.mk d ++ "')"))
      | none => none
  else if dataType == "timestamp with time zone" then
    let lv := toLowerStr value
    if lv == "(now() at time zone 'utc'::text)" || lv == "now()" ||
        lv == "current_timestamp" then
      some (.str "new Date()")
    else
      match matchCastLitList isTsBody "::timestamp with time zone".data lv.data with
      | some d => some (.str ("new Date('" ++ String.mk d ++ "')"))
      | none => none
  else
    match enums.find? (fun p => strEndsWith value ("::" ++ p.1)) with
    | some _ =>
      some (.str ("'" ++
        (match (splitListOn '\'' value.data)[1]? with
         | some m => String.mk m
         | none => "undefined") ++ "'"))
    | none => none

/-! ## Type mappers

There are two near-identical entry points in the repository; their
`getTypeForDataType` functions differ.  `IndexJs` models src/index.js
lines 262-294 (no fixed-length-character or uuid arm); `DbJs` models the
variant embedded in src/db.js lines 358-406 (with both arms).

In both variants the enum arm reads the identifiers `column_default` and
`data_type`, which are not declared in the enclosing scope — evaluating the
arm raises a `ReferenceError`.  In addition, the fallback arm of the
index.js variant evaluates `chalk.warn(...)` (index.js line 290); `chalk`
is loaded with `require()`, so it is chalk ≤ 4, and no chalk version
exposes a `warn` style — the call throws
`TypeError: chalk.warn is not a function` before the `return "z.unknown()"`
on line 292, which is unreachable.  The db.js variant's fallback instead
logs through the valid `chalk.yellow` and does return `"z.unknown()"`.
Both mappers are therefore `Except`-valued; a thrown exception is
`.error`. -/

namespace IndexJs

/-- Arms of index.js `getTypeForDataType` (lines 272-293) after the enum
check: character varying / text, the numeric family, boolean, timestamp
with time zone, date — and the fallback arm, which throws a `TypeError`
when it evaluates the nonexistent `chalk.warn` (line 290), so the
`return "z.unknown()"` on line 292 never executes. -/
def getTypeForDataTypeRest (dataType columnName : String) : Except String String :=
  let readableName := getReadableNameFromSnakeCase columnName
  if strStartsWith dataType "character varying" || dataType == "text" then
    .ok ("z.string().min(1, '" ++ readableName ++ " is required')")
  else if dataType == "integer" || dataType == "bigint" || dataType == "numeric" ||
      dataType == "smallint" || dataType == "double precision" then
    .ok ("z.number().gt(0, '" ++ readableName ++ " is required')")
  else if dataType == "boolean" then
    .ok "z.boolean()"
  else if dataType == "timestamp with time zone" then
    .ok "zodUtcDate"
  else if dataType == "date" then
    .ok "zodDateOnly"
  else
    .error "TypeError: chalk.warn is not a function"

/-- Source `getTypeForDataType` (index.js lines 262-294).  When `udt_name`
is registered in `enums` the function evaluates `column_default`, an
undeclared identifier, raising a `ReferenceError` (modelled as `.error`);
otherwise it falls through to the remaining arms. -/
def getTypeForDataType (dataType : String) (enums : Enums)
    (columnName udt_name : String) : Except String String :=
  match enumLookup enums udt_name with
  | some _ => .error "ReferenceError: column_default is not defined"
  | none => getTypeForDataTypeRest dataType columnName

end IndexJs

namespace DbJs

/-- Arms of the db.js-variant `getTypeForDataType` (lines 376-405) after
the enum check: fixed-length character (when `character_maximum_length` is
truthy), character varying / text, the numeric family, boolean, timestamp
with time zone, date, uuid, and the `z.unknown()` fallback — this
variant's fallback logs through the valid `chalk.yellow` (db.js lines
397-403) and genuinely returns. -/
def getTypeForDataTypeRest (dataType columnName : String)
    (character_maximum_length : Option Nat) : String :=
  let readableName := getReadableNameFromSnakeCase columnName
  let charLen : Option Nat :=
    if dataType == "character" then
      match character_maximum_length with
      | some n => if n == 0 then none else some n
      | none => none
    else none
  match charLen with
  | some n =>
    "z.string().length(" ++ toString n ++ ", '" ++ readableName ++ " must be " ++
      toString n ++ " characters long')"
  | none =>
    if strStartsWith dataType "character varying" || dataType == "text" then
      "z.string().min(1, '" ++ readableName ++ " is required')"
    else if dataType == "integer" || dataType == "bigint" || dataType == "numeric" ||
        dataType == "smallint" || dataType == "double precision" then
      "z.number().gt(0, '" ++ readableName ++ " is required')"
    else if dataType == "boolean" then
      "z.boolean()"
    else if dataType == "timestamp with time zone" then
      "zodUtcDate('" ++ readableName ++ "')"
    else if dataType == "date" then
      "zodDateOnly('" ++ readableName ++ "')"
    else if dataType == "uuid" then
      "zodUUID('" ++ readableName ++ "')"
    else
      "z.unknown()"

/-- The db.js-variant `getTypeForDataType` (db.js lines 358-406); the enum
arm raises a `ReferenceError` exactly as in the index.js variant. -/
def getTypeForDataType (dataType : String) (enums : Enums)
    (columnName udt_name : String) (character_maximum_length : Option Nat) :
    Except String String :=
  match enumLookup enums udt_name with
  | some _ => .error "ReferenceError: column_default is not defined"
  | none => .ok (getTypeForDataTypeRest dataType columnName character_maximum_length)

end DbJs

/-! ## Column schema assembler (src/index.js `getTableSchema`, lines 149-260)

We model the pure part: the construction of the ordered list of
`(key, value)` schema entries from the fetched column rows and the enum
registry.  Connection handling, console output and file writing are
collaborators outside the model. -/

/-- One row of the `information_schema.columns` query (index.js lines
152-156).  `column_default` is `NULL`-able; the other fields are the text
values PostgreSQL reports (`is_nullable` and `is_identity` are
`"YES"`/`"NO"`). -/
structure Column where
  column_name : String
  data_type : String
  is_nullable : String
  column_default : Option String
  udt_name : String
  is_identity : String
deriving DecidableEq

/-- One generated schema entry `{ key, value }` (index.js line 206). -/
structure FieldEntry where
  key : String
  value : String
deriving DecidableEq

/-- Base expression of a column (index.js lines 177-189): an enum construct
when `udt_name` is registered, an array construct (mapping the element
type) when `data_type` ends in `[]`, else the mapped scalar type.  The two
non-enum arms call `getTypeForDataType`, whose exceptions (the fallback
`TypeError`) propagate. -/
def columnBaseType (enums : Enums) (c : Column) : Except String String :=
  match enumLookup enums c.udt_name with
  | some labels =>
    .ok ("z.enum([" ++ joinWith ", " (labels.map (fun v => "'" ++ v ++ "'")) ++ "])")
  | none =>
    if strEndsWith c.data_type "[]" then
      (IndexJs.getTypeForDataType (dropRightStr c.data_type 2) enums
        c.column_name c.udt_name).map (fun t => "z.array(" ++ t ++ ")")
    else
      IndexJs.getTypeForDataType c.data_type enums c.column_name c.udt_name

/-- Full expression of a column (index.js lines 177-204): the base type,
then — when a non-null default parses — a `.default(...)` wrapper (the
source guards `defaultValue !== undefined && defaultValue !== NaN`; the
`NaN` comparison is always true in JS, so only `undefined` blocks the
wrapper), then `.optional()` when the column is nullable.  An exception
from the type mapper propagates. -/
def buildColumnType (enums : Enums) (c : Column) : Except String String :=
  match columnBaseType enums c with
  | .error e => .error e
  | .ok base =>
    let withDefault :=
      match c.column_default with
      | none => base
      | some d =>
        match parseDefaultValue d c.data_type enums with
        | some v => base ++ ".default(" ++ v.render ++ ")"
        | none => base
    .ok (if c.is_nullable == "YES" then withDefault ++ ".optional()" else withDefault)

/-- Per-column filtering and entry construction (index.js lines 168-215):
skip (`.ok none`) when the exclude-defaults policy is active and the
column has a non-null default, and when the column is nullable and the
include-nullable policy is off; otherwise build the entry, propagating a
mapper exception (which aborts the whole table's `forEach`). -/
def processColumn (excludeDefaults includeNullable : Bool) (enums : Enums)
    (c : Column) : Except String (Option FieldEntry) :=
  if excludeDefaults && c.column_default.isSome then .ok none
  else if c.is_nullable == "NO" || includeNullable then
    match buildColumnType enums c with
    | .error e => .error e
    | .ok t => .ok (some ⟨camelCase c.column_name, t⟩)
  else .ok none

/-- The `forEach` accumulation loop (index.js lines 168-215): rows are
processed in order; an entry of an identity column overwrites the single
pinned slot (last one wins) and every other entry is pushed onto the list;
an exception thrown for any row propagates out of the loop and aborts the
table (caught in `main`, which logs and produces no output). -/
def collectLoop (excludeDefaults includeNullable : Bool) (enums : Enums) :
    Option FieldEntry × List FieldEntry → List Column →
    Except String (Option FieldEntry × List FieldEntry)
  | acc, [] => .ok acc
  | acc, c :: rs =>
    match processColumn excludeDefaults includeNullable enums c with
    | .error e => .error e
    | .ok none => collectLoop excludeDefaults includeNullable enums acc rs
    | .ok (some e) =>
      collectLoop excludeDefaults includeNullable enums
        (if c.is_identity == "YES" then (some e, acc.2) else (acc.1, acc.2 ++ [e])) rs

/-- Ordinal (code-point) comparison of character lists.  This is the
comparison the specification claims the sort uses; it is kept to state
that claim's counterexample, and is NOT the comparator of the model (the
source sorts with `localeCompare`, see `localeLeChars`). -/
def leChars : List Char → List Char → Bool
  | [], _ => true
  | _ :: _, [] => false
  | a :: as, b :: bs =>
    if a.toNat < b.toNat then true
    else if b.toNat < a.toNat then false
    else leChars as bs

/-- Strict lexicographic order on weight sequences. -/
def lexLtNat : List Nat → List Nat → Bool
  | [], [] => false
  | [], _ :: _ => true
  | _ :: _, [] => false
  | a :: as, b :: bs =>
    if a < b then true
    else if b < a then false
    else lexLtNat as bs

/-- Modelled from the platform: the collation sort key of
`String.prototype.localeCompare` under Node's default ICU root collation,
restricted to ASCII letters — the whole primary-weight sequence
(case-folded letters) is compared first, and ties are broken by the
tertiary (case) weights, lowercase before uppercase.  This is exact for
the ASCII-letter keys every theorem evaluates (e.g. `ab < aZ` although
ordinally `'Z' < 'b'`, and `a < A`); characters outside the letters are
approximated by their case-folded code point at the primary level. -/
def localeSortKey (cs : List Char) : List Nat :=
  cs.map (fun c => c.toLower.toNat) ++ 0 :: cs.map (fun c => if c.isUpper then 2 else 1)

/-- Non-strict locale comparison of two keys:
`a.localeCompare(b) ≤ 0` as sort-key comparison. -/
def localeLeChars (as bs : List Char) : Bool :=
  !lexLtNat (localeSortKey bs) (localeSortKey as)

/-- Comparator of the entry sort (index.js line 217,
`a.key.localeCompare(b.key)`). -/
def entryLE (a b : FieldEntry) : Prop := localeLeChars a.key.data b.key.data = true

instance : DecidableRel entryLE :=
  fun a b => inferInstanceAs (Decidable (localeLeChars a.key.data b.key.data = true))

/-- The ordered entry list of `getTableSchema` (index.js lines 217-221):
sort the accumulated entries by key (JS `sort` with an order-consistent
comparator is stable; modelled by stable insertion sort) and pin the
identity entry, if any, in front.  A per-row exception aborts the whole
table before any sorting. -/
def assembleEntries (excludeDefaults includeNullable : Bool) (enums : Enums)
    (rows : List Column) : Except String (List FieldEntry) :=
  match collectLoop excludeDefaults includeNullable enums (none, []) rows with
  | .error e => .error e
  | .ok p =>
    .ok (match p.1 with
         | some e => e :: List.insertionSort entryLE p.2
         | none => List.insertionSort entryLE p.2)

/-! ## Auxiliary lemmas -/

/-- `takeWhile` passes over a block that satisfies the predicate. -/
theorem takeWhile_append_all {α : Type} {p : α → Bool} :
    ∀ {l1 l2 : List α}, (∀ c ∈ l1, p c = true) →
      (l1 ++ l2).takeWhile p = l1 ++ l2.takeWhile p := by
  intro l1
  induction l1 with
  | nil => intro l2 _; rfl
  | cons a l ih =>
    intro l2 h
    have ha : p a = true := h a (by simp)
    simp only [List.cons_append, List.takeWhile_cons, ha, if_true]
    rw [ih (fun c hc => h c (by simp [hc]))]

/-- `dropWhile` skips over a block that satisfies the predicate. -/
theorem dropWhile_append_all {α : Type} {p : α → Bool} :
    ∀ {l1 l2 : List α}, (∀ c ∈ l1, p c = true) →
      (l1 ++ l2).dropWhile p = l2.dropWhile p := by
  intro l1
  induction l1 with
  | nil => intro l2 _; rfl
  | cons a l ih =>
    intro l2 h
    have ha : p a = true := h a (by simp)
    simp only [List.cons_append, List.dropWhile_cons, ha, if_true]
    exact ih (fun c hc => h c (by simp [hc]))

/-- The head on which `dropWhile` stopped fails the predicate. -/
theorem dropWhile_head_false {α : Type} {p : α → Bool} :
    ∀ {l : List α} {x : α} {xs : List α}, l.dropWhile p = x :: xs → p x = false := by
  intro l
  induction l with
  | nil => intro x xs h; simp at h
  | cons a l ih =>
    intro x xs h
    by_cases ha : p a = true
    · rw [List.dropWhile_cons, if_pos ha] at h
      exact ih h
    · rw [List.dropWhile_cons, if_neg ha] at h
      cases h
      exact Bool.eq_false_iff.mpr ha

/-- Splitting on a separator that does not occur returns the single piece. -/
theorem splitListOn_of_not_mem {sep : Char} :
    ∀ {l : List Char}, sep ∉ l → splitListOn sep l = [l] := by
  intro l
  induction l with
  | nil => intro _; rfl
  | cons c cs ih =>
    intro h
    have hc : (c == sep) = false := by
      simp only [beq_eq_false_iff_ne]
      exact fun e => h (by simp [e])
    have hcs : sep ∉ cs := fun hm => h (List.mem_cons_of_mem _ hm)
    simp only [splitListOn, hc, Bool.false_eq_true, if_false, ih hcs]

/-- The strict lexicographic weight order is irreflexive. -/
theorem lexLtNat_irrefl : ∀ l : List Nat, lexLtNat l l = false := by
  intro l
  induction l with
  | nil => rfl
  | cons a as ih =>
    simp only [lexLtNat, Nat.lt_irrefl, if_false, ih]

/-- The strict lexicographic weight order is transitive. -/
theorem lexLtNat_trans :
    ∀ as bs cs : List Nat, lexLtNat as bs = true → lexLtNat bs cs = true →
      lexLtNat as cs = true := by
  intro as
  induction as with
  | nil =>
    intro bs cs h1 h2
    cases bs with
    | nil => exact h2
    | cons b bs =>
      cases cs with
      | nil => simp [lexLtNat] at h2
      | cons c cs => rfl
  | cons a as ih =>
    intro bs cs h1 h2
    cases bs with
    | nil => simp [lexLtNat] at h1
    | cons b bs =>
      cases cs with
      | nil => simp [lexLtNat] at h2
      | cons c cs =>
        simp only [lexLtNat] at h1 h2 ⊢
        by_cases hab : a < b
        · by_cases hbc : b < c
          · have hac : a < c := by omega
            simp [hac]
          · by_cases hcb : c < b
            · simp [hbc, hcb] at h2
            · have hac : a < c := by omega
              simp [hac]
        · by_cases hba : b < a
          · simp [hab, hba] at h1
          · by_cases hbc : b < c
            · have hac : a < c := by omega
              simp [hac]
            · by_cases hcb : c < b
              · simp [hbc, hcb] at h2
              · have hac : ¬a < c := by omega
                have hca : ¬c < a := by omega
                simp only [hab, hba, if_false] at h1
                simp only [hbc, hcb, if_false] at h2
                simp only [hac, hca, if_false]
                exact ih bs cs h1 h2

/-- Two weight sequences not strictly below one another are equal. -/
theorem lexLtNat_connected :
    ∀ as bs : List Nat, lexLtNat as bs = false → lexLtNat bs as = false →
      as = bs := by
  intro as
  induction as with
  | nil =>
    intro bs h1 _
    cases bs with
    | nil => rfl
    | cons b bs => simp [lexLtNat] at h1
  | cons a as ih =>
    intro bs h1 h2
    cases bs with
    | nil => simp [lexLtNat] at h2
    | cons b bs =>
      simp only [lexLtNat] at h1 h2
      by_cases hab : a < b
      · simp [hab] at h1
      · by_cases hba : b < a
        · simp [hab, hba] at h2
        · have hval : a = b := by omega
          simp only [hab, hba, if_false] at h1 h2
          rw [hval, ih bs h1 h2]

/-- The locale comparison is total. -/
theorem localeLe_total :
    ∀ as bs : List Char, localeLeChars as bs = true ∨ localeLeChars bs as = true := by
  intro as bs
  unfold localeLeChars
  cases h1 : lexLtNat (localeSortKey bs) (localeSortKey as) with
  | false => exact Or.inl rfl
  | true =>
    cases h2 : lexLtNat (localeSortKey as) (localeSortKey bs) with
    | false => exact Or.inr rfl
    | true =>
      have h3 := lexLtNat_trans _ _ _ h1 h2
      rw [lexLtNat_irrefl] at h3
      cases h3

/-- The locale comparison is transitive. -/
theorem localeLe_trans :
    ∀ as bs cs : List Char, localeLeChars as bs = true → localeLeChars bs cs = true →
      localeLeChars as cs = true := by
  intro as bs cs h1 h2
  unfold localeLeChars at h1 h2 ⊢
  have g1 : lexLtNat (localeSortKey bs) (localeSortKey as) = false := by
    simpa using h1
  have g2 : lexLtNat (localeSortKey cs) (localeSortKey bs) = false := by
    simpa using h2
  have g3 : lexLtNat (localeSortKey cs) (localeSortKey as) = false := by
    cases hx : lexLtNat (localeSortKey cs) (localeSortKey as) with
    | false => rfl
    | true =>
      cases hy : lexLtNat (localeSortKey as) (localeSortKey bs) with
      | true =>
        have h4 := lexLtNat_trans _ _ _ hx hy
        rw [g2] at h4
        cases h4
      | false =>
        have heq := lexLtNat_connected _ _ hy g1
        rw [heq] at hx
        rw [g2] at hx
        cases hx
  rw [g3]
  rfl

instance : IsTotal FieldEntry entryLE :=
  ⟨fun a b => localeLe_total a.key.data b.key.data⟩

instance : IsTrans FieldEntry entryLE :=
  ⟨fun _ _ _ h1 h2 => localeLe_trans _ _ _ h1 h2⟩

/-- Characters of a matched mantissa are digits or the dot. -/
theorem mantissaOk_chars {cs : List Char} (h : mantissaOk cs = true) :
    ∀ c ∈ cs, c.isDigit = true ∨ c = '.' := by
  intro c hc
  rw [← List.takeWhile_append_dropWhile (p := Char.isDigit) (l := cs)] at hc
  rcases List.mem_append.mp hc with hc | hc
  · exact Or.inl (List.mem_takeWhile_imp hc)
  · unfold mantissaOk at h
    cases hdrop : cs.dropWhile Char.isDigit with
    | nil => rw [hdrop] at hc; simp at hc
    | cons d ds =>
      rw [hdrop] at h hc
      simp only [Bool.and_eq_true] at h
      rcases List.mem_cons.mp hc with rfl | hc
      · exact Or.inr (eq_of_beq h.1.1)
      · exact Or.inl (List.all_eq_true.mp h.2 c hc)

/-- Characters of a matched exponent tail are digits or a sign. -/
theorem expTailOk_chars {cs : List Char} (h : expTailOk cs = true) :
    ∀ c ∈ cs, c.isDigit = true ∨ c = '-' ∨ c = '+' := by
  intro c hc
  unfold expTailOk at h
  cases cs with
  | nil => simp at hc
  | cons a r =>
    simp only [Bool.and_eq_true] at h
    by_cases ha : (a == '-' || a == '+') = true
    · have hstrip : stripSign (a :: r) = r := by simp [stripSign, ha]
      rw [hstrip] at h
      rcases List.mem_cons.mp hc with rfl | hc
      · simp only [Bool.or_eq_true] at ha
        rcases ha with h1 | h1
        · exact Or.inr (Or.inl (eq_of_beq h1))
        · exact Or.inr (Or.inr (eq_of_beq h1))
      · exact Or.inl (List.all_eq_true.mp h.2 c hc)
    · have hstrip : stripSign (a :: r) = a :: r := by simp [stripSign, ha]
      rw [hstrip] at h
      exact Or.inl (List.all_eq_true.mp h.2 c hc)

/-- Characters of the sign-stripped part of a matched number. -/
theorem numberBody_chars {cs : List Char}
    (h : (match cs.dropWhile notExpChar with
          | [] => mantissaOk (cs.takeWhile notExpChar)
          | _ :: rest => mantissaOk (cs.takeWhile notExpChar) && expTailOk rest) = true) :
    ∀ c ∈ cs, c.isDigit = true ∨ c = '.' ∨ c = '-' ∨ c = '+' ∨ c = 'e' ∨ c = 'E' := by
  intro c hc
  rw [← List.takeWhile_append_dropWhile (p := notExpChar) (l := cs)] at hc
  have hm : mantissaOk (cs.takeWhile notExpChar) = true := by
    cases hdrop : cs.dropWhile notExpChar with
    | nil => rw [hdrop] at h; exact h
    | cons d rest =>
      rw [hdrop] at h
      simp only [Bool.and_eq_true] at h
      exact h.1
  rcases List.mem_append.mp hc with hc | hc
  · rcases mantissaOk_chars hm c hc with h1 | h1
    · exact Or.inl h1
    · exact Or.inr (Or.inl h1)
  · cases hdrop : cs.dropWhile notExpChar with
    | nil => rw [hdrop] at hc; simp at hc
    | cons d rest =>
      rw [hdrop] at h hc
      simp only [Bool.and_eq_true] at h
      have hd : notExpChar d = false := dropWhile_head_false hdrop
      have hde : d = 'e' ∨ d = 'E' := by
        unfold notExpChar at hd
        by_cases he : d = 'e'
        · exact Or.inl he
        · right
          simp [he] at hd
          exact hd
      rcases List.mem_cons.mp hc with rfl | hc
      · rcases hde with rfl | rfl
        · exact Or.inr (Or.inr (Or.inr (Or.inr (Or.inl rfl))))
        · exact Or.inr (Or.inr (Or.inr (Or.inr (Or.inr rfl))))
      · rcases expTailOk_chars h.2 c hc with h1 | h1 | h1
        · exact Or.inl h1
        · exact Or.inr (Or.inr (Or.inl h1))
        · exact Or.inr (Or.inr (Or.inr (Or.inl h1)))

/-- Characters of a string matching the JS number regex. -/
theorem numberListOk_chars {cs0 : List Char} (h : numberListOk cs0 = true) :
    ∀ c ∈ cs0, c.isDigit = true ∨ c = '.' ∨ c = '-' ∨ c = '+' ∨ c = 'e' ∨ c = 'E' := by
  intro c hc
  unfold numberListOk at h
  cases cs0 with
  | nil => simp at hc
  | cons a rest =>
    by_cases ha : (a == '-' || a == '+') = true
    · have hstrip : stripSign (a :: rest) = rest := by simp [stripSign, ha]
      rw [hstrip] at h
      rcases List.mem_cons.mp hc with rfl | hc
      · simp only [Bool.or_eq_true] at ha
        rcases ha with h1 | h1
        · exact Or.inr (Or.inr (Or.inl (eq_of_beq h1)))
        · exact Or.inr (Or.inr (Or.inr (Or.inl (eq_of_beq h1))))
      · exact numberBody_chars h c hc
    · have hstrip : stripSign (a :: rest) = a :: rest := by simp [stripSign, ha]
      rw [hstrip] at h
      exact numberBody_chars h c hc

/-- A string matching the JS number regex contains no single quote. -/
theorem numberListOk_no_quote {cs : List Char} (h : numberListOk cs = true) :
    ∀ c ∈ cs, (c != '\'') = true := by
  intro c hc
  rcases numberListOk_chars h c hc with h1 | h1 | h1 | h1 | h1 | h1
  · simp only [bne_iff_ne, ne_eq]
    rintro rfl
    exact absurd h1 (by decide)
  all_goals subst h1; decide

/-- A string matching the JS number regex is nonempty. -/
theorem numberListOk_ne_nil {cs : List Char} (h : numberListOk cs = true) : cs ≠ [] := by
  rintro rfl
  simp [numberListOk, stripSign, mantissaOk, notExpChar] at h

/-- The quoted-cast form `'<number>'::<word>` matches the quoted-number
regex with the number as the capture. -/
theorem matchQuotedNumberList_quoted {s ty : List Char}
    (hs : numberListOk s = true) (hty : ty ≠ [])
    (htyw : ty.all isWordChar = true) :
    matchQuotedNumberList ('\'' :: (s ++ '\'' :: ':' :: ':' :: ty)) = some s := by
  have hnq : ∀ c ∈ s, (c != '\'') = true := numberListOk_no_quote hs
  have hdrop : (s ++ '\'' :: ':' :: ':' :: ty).dropWhile (fun x => x != '\'') =
      '\'' :: ':' :: ':' :: ty := by
    rw [dropWhile_append_all hnq]
    simp [List.dropWhile_cons]
  have htake : (s ++ '\'' :: ':' :: ':' :: ty).takeWhile (fun x => x != '\'') = s := by
    rw [takeWhile_append_all hnq]
    simp [List.takeWhile_cons]
  have htyne : ty.isEmpty = false := by
    cases ty with
    | nil => exact absurd rfl hty
    | cons a l => rfl
  simp only [matchQuotedNumberList, beq_self_eq_true, if_true, hdrop, htake]
  simp [hs, htyne, htyw]

/-- A bare number never matches the quoted-number regex (it cannot start
with a quote). -/
theorem matchQuotedNumberList_bare {s : List Char} (hs : numberListOk s = true) :
    matchQuotedNumberList s = none := by
  cases s with
  | nil => rfl
  | cons c rest =>
    have hc : (c != '\'') = true := numberListOk_no_quote hs c (by simp)
    have hc2 : (c == '\'') = false := by
      simp only [bne_iff_ne, ne_eq] at hc
      exact beq_eq_false_iff_ne.mpr hc
    simp [matchQuotedNumberList, hc2]

/-! ### Assembler loop lemmas -/

/-- One unfolding step of the loop on a nonempty row list. -/
theorem collectLoop_cons {ed inc : Bool} {enums : Enums}
    {acc : Option FieldEntry × List FieldEntry} {c : Column} {rs : List Column} :
    collectLoop ed inc enums acc (c :: rs) =
      match processColumn ed inc enums c with
      | .error e => .error e
      | .ok none => collectLoop ed inc enums acc rs
      | .ok (some e) =>
        collectLoop ed inc enums
          (if c.is_identity == "YES" then (some e, acc.2) else (acc.1, acc.2 ++ [e])) rs :=
  rfl

/-- One-step characterization: a throwing row aborts the loop. -/
theorem collectLoop_cons_error {ed inc : Bool} {enums : Enums}
    {acc : Option FieldEntry × List FieldEntry} {c : Column} {rs : List Column}
    {err : String} (hp : processColumn ed inc enums c = .error err) :
    collectLoop ed inc enums acc (c :: rs) = .error err := by
  rw [collectLoop_cons, hp]

/-- One-step characterization: a filtered row leaves the accumulator. -/
theorem collectLoop_cons_skip {ed inc : Bool} {enums : Enums}
    {acc : Option FieldEntry × List FieldEntry} {c : Column} {rs : List Column}
    (hp : processColumn ed inc enums c = .ok none) :
    collectLoop ed inc enums acc (c :: rs) = collectLoop ed inc enums acc rs := by
  rw [collectLoop_cons, hp]

/-- One-step characterization: a processed row routes its entry. -/
theorem collectLoop_cons_entry {ed inc : Bool} {enums : Enums}
    {acc : Option FieldEntry × List FieldEntry} {c : Column} {rs : List Column}
    {e : FieldEntry} (hp : processColumn ed inc enums c = .ok (some e)) :
    collectLoop ed inc enums acc (c :: rs) =
      collectLoop ed inc enums
        (if c.is_identity == "YES" then (some e, acc.2) else (acc.1, acc.2 ++ [e])) rs := by
  rw [collectLoop_cons, hp]

/-- Entries accumulated by the loop persist to a successful end. -/
theorem collectLoop_snd_mono {ed inc : Bool} {enums : Enums} :
    ∀ (rows : List Column) (acc p : Option FieldEntry × List FieldEntry)
      (e : FieldEntry), collectLoop ed inc enums acc rows = .ok p →
      e ∈ acc.2 → e ∈ p.2 := by
  intro rows
  induction rows with
  | nil =>
    intro acc p e h he
    have hpe := Except.ok.inj h
    rw [← hpe]
    exact he
  | cons r rs ih =>
    intro acc p e h he
    cases hp : processColumn ed inc enums r with
    | error err =>
      rw [collectLoop_cons_error hp] at h
      exact Except.noConfusion h
    | ok oe =>
      cases oe with
      | none =>
        rw [collectLoop_cons_skip hp] at h
        exact ih acc p e h he
      | some e2 =>
        rw [collectLoop_cons_entry hp] at h
        apply ih _ p e h
        cases hid : (r.is_identity == "YES") with
        | true => simp only [hid, if_true]; exact he
        | false =>
          simp only [hid, Bool.false_eq_true, if_false]
          exact List.mem_append_left _ he

/-- Every accumulated (non-identity) entry of a successful loop comes from
a processed column. -/
theorem collectLoop_snd_mem {ed inc : Bool} {enums : Enums} :
    ∀ (rows : List Column) (acc p : Option FieldEntry × List FieldEntry)
      (e : FieldEntry), collectLoop ed inc enums acc rows = .ok p →
      e ∈ p.2 →
      e ∈ acc.2 ∨ ∃ c ∈ rows, processColumn ed inc enums c = .ok (some e) := by
  intro rows
  induction rows with
  | nil =>
    intro acc p e h he
    have hpe := Except.ok.inj h
    rw [← hpe] at he
    exact Or.inl he
  | cons r rs ih =>
    intro acc p e h he
    cases hp : processColumn ed inc enums r with
    | error err =>
      rw [collectLoop_cons_error hp] at h
      exact Except.noConfusion h
    | ok oe =>
      cases oe with
      | none =>
        rw [collectLoop_cons_skip hp] at h
        rcases ih acc p e h he with h1 | ⟨c, hc, hpc⟩
        · exact Or.inl h1
        · exact Or.inr ⟨c, by simp [hc], hpc⟩
      | some e2 =>
        rw [collectLoop_cons_entry hp] at h
        rcases ih _ p e h he with h1 | ⟨c, hc, hpc⟩
        · cases hid : (r.is_identity == "YES") with
          | true =>
            rw [hid] at h1
            simp only [if_true] at h1
            exact Or.inl h1
          | false =>
            rw [hid] at h1
            simp only [Bool.false_eq_true, if_false] at h1
            rcases List.mem_append.mp h1 with h2 | h2
            · exact Or.inl h2
            · simp only [List.mem_singleton] at h2
              subst h2
              exact Or.inr ⟨r, by simp, hp⟩
        · exact Or.inr ⟨c, by simp [hc], hpc⟩

/-- A filled identity slot of a successful loop comes from a processed
identity column. -/
theorem collectLoop_fst_some {ed inc : Bool} {enums : Enums} :
    ∀ (rows : List Column) (acc p : Option FieldEntry × List FieldEntry)
      (e : FieldEntry), collectLoop ed inc enums acc rows = .ok p →
      p.1 = some e →
      acc.1 = some e ∨ ∃ c ∈ rows, processColumn ed inc enums c = .ok (some e) := by
  intro rows
  induction rows with
  | nil =>
    intro acc p e h hfst
    have hpe := Except.ok.inj h
    rw [← hpe] at hfst
    exact Or.inl hfst
  | cons r rs ih =>
    intro acc p e h hfst
    cases hp : processColumn ed inc enums r with
    | error err =>
      rw [collectLoop_cons_error hp] at h
      exact Except.noConfusion h
    | ok oe =>
      cases oe with
      | none =>
        rw [collectLoop_cons_skip hp] at h
        rcases ih acc p e h hfst with h1 | ⟨c, hc, hpc⟩
        · exact Or.inl h1
        · exact Or.inr ⟨c, by simp [hc], hpc⟩
      | some e2 =>
        rw [collectLoop_cons_entry hp] at h
        rcases ih _ p e h hfst with h1 | ⟨c, hc, hpc⟩
        · cases hid : (r.is_identity == "YES") with
          | true =>
            rw [hid] at h1
            simp only [if_true] at h1
            have : e2 = e := Option.some.inj h1
            subst this
            exact Or.inr ⟨r, by simp, hp⟩
          | false =>
            rw [hid] at h1
            simp only [Bool.false_eq_true, if_false] at h1
            exact Or.inl h1
        · exact Or.inr ⟨c, by simp [hc], hpc⟩

/-- A processed non-identity column's entry reaches the accumulated list
of a successful loop. -/
theorem collectLoop_mem_of {ed inc : Bool} {enums : Enums} :
    ∀ (rows : List Column) (acc p : Option FieldEntry × List FieldEntry)
      (c : Column) (e : FieldEntry), c ∈ rows →
      processColumn ed inc enums c = .ok (some e) →
      (c.is_identity == "YES") = false →
      collectLoop ed inc enums acc rows = .ok p →
      e ∈ p.2 := by
  intro rows
  induction rows with
  | nil =>
    intro acc p c e hc
    simp at hc
  | cons r rs ih =>
    intro acc p c e hc hp hid h
    rcases List.mem_cons.mp hc with rfl | hc
    · rw [collectLoop_cons_entry hp, hid] at h
      simp only [Bool.false_eq_true, if_false] at h
      exact collectLoop_snd_mono rs _ p e h (List.mem_append_right _ (by simp))
    · cases hpr : processColumn ed inc enums r with
      | error err =>
        rw [collectLoop_cons_error hpr] at h
        exact Except.noConfusion h
      | ok oe =>
        cases oe with
        | none =>
          rw [collectLoop_cons_skip hpr] at h
          exact ih acc p c e hc hp hid h
        | some e2 =>
          rw [collectLoop_cons_entry hpr] at h
          exact ih _ p c e hc hp hid h

/-- If every identity column of the table is filtered out, the identity
slot of a successful loop stays empty. -/
theorem collectLoop_fst_none {ed inc : Bool} {enums : Enums} :
    ∀ (rows : List Column) (acc p : Option FieldEntry × List FieldEntry),
      (∀ c ∈ rows, (c.is_identity == "YES") = true →
        processColumn ed inc enums c = .ok none) →
      collectLoop ed inc enums acc rows = .ok p →
      acc.1 = none → p.1 = none := by
  intro rows
  induction rows with
  | nil =>
    intro acc p _ h hacc
    have hpe := Except.ok.inj h
    rw [← hpe]
    exact hacc
  | cons r rs ih =>
    intro acc p hall h hacc
    cases hp : processColumn ed inc enums r with
    | error err =>
      rw [collectLoop_cons_error hp] at h
      exact Except.noConfusion h
    | ok oe =>
      cases oe with
      | none =>
        rw [collectLoop_cons_skip hp] at h
        exact ih acc p (fun c hc => hall c (by simp [hc])) h hacc
      | some e2 =>
        cases hid : (r.is_identity == "YES") with
        | true =>
          rw [hall r (by simp) hid] at hp
          exact absurd (Except.ok.inj hp) (by simp)
        | false =>
          rw [collectLoop_cons_entry hp, hid] at h
          simp only [Bool.false_eq_true, if_false] at h
          exact ih _ p (fun c hc => hall c (by simp [hc])) h hacc

/-- A successful loop determines the assembled output: the pinned identity
entry (if any) in front of the sorted remainder. -/
theorem assembleEntries_ok {ed inc : Bool} {enums : Enums} {rows : List Column}
    {p : Option FieldEntry × List FieldEntry}
    (h : collectLoop ed inc enums (none, []) rows = .ok p) :
    assembleEntries ed inc enums rows =
      .ok (p.1.toList ++ List.insertionSort entryLE p.2) := by
  unfold assembleEntries
  rw [h]
  obtain ⟨fst, snd⟩ := p
  cases fst with
  | none => rfl
  | some e => rfl

/-- A successful assembly comes from a successful loop. -/
theorem assembleEntries_ok_inv {ed inc : Bool} {enums : Enums}
    {rows : List Column} {result : List FieldEntry}
    (h : assembleEntries ed inc enums rows = .ok result) :
    ∃ p, collectLoop ed inc enums (none, []) rows = .ok p ∧
      result = p.1.toList ++ List.insertionSort entryLE p.2 := by
  cases hcl : collectLoop ed inc enums (none, []) rows with
  | error err =>
    unfold assembleEntries at h
    rw [hcl] at h
    exact Except.noConfusion h
  | ok p =>
    refine ⟨p, rfl, ?_⟩
    rw [assembleEntries_ok hcl] at h
    exact (Except.ok.inj h).symm

/-- Every entry of a successful assembly comes from a processed column. -/
theorem mem_assembleEntries {ed inc : Bool} {enums : Enums} {rows : List Column}
    {result : List FieldEntry} {e : FieldEntry}
    (h : assembleEntries ed inc enums rows = .ok result) (he : e ∈ result) :
    ∃ c ∈ rows, processColumn ed inc enums c = .ok (some e) := by
  obtain ⟨p, hcl, hres⟩ := assembleEntries_ok_inv h
  subst hres
  rcases List.mem_append.mp he with h1 | h1
  · cases hfst : p.1 with
    | none =>
      rw [hfst] at h1
      simp at h1
    | some e2 =>
      rw [hfst] at h1
      have he2 : e = e2 := by simpa [Option.toList] using h1
      subst he2
      rcases collectLoop_fst_some rows (none, []) p e hcl hfst with h2 | h2
      · simp at h2
      · exact h2
  · have h2 := (List.perm_insertionSort entryLE p.2).mem_iff.mp h1
    rcases collectLoop_snd_mem rows (none, []) p e hcl h2 with h3 | h3
    · simp at h3
    · exact h3

/-- A processed non-identity column's entry appears in a successful
assembly. -/
theorem mem_assembleEntries_of {ed inc : Bool} {enums : Enums} {rows : List Column}
    {p : Option FieldEntry × List FieldEntry} {c : Column} {e : FieldEntry}
    (hcl : collectLoop ed inc enums (none, []) rows = .ok p)
    (hc : c ∈ rows) (hp : processColumn ed inc enums c = .ok (some e))
    (hid : (c.is_identity == "YES") = false) :
    e ∈ p.1.toList ++ List.insertionSort entryLE p.2 :=
  List.mem_append_right _
    ((List.perm_insertionSort entryLE p.2).mem_iff.mpr
      (collectLoop_mem_of rows (none, []) p c e hc hp hid hcl))

/-- Appending the empty string is the identity. -/
theorem strAppend_empty (s : String) : s ++ "" = s := by
  cases s with
  | mk data =>
    show String.mk (data ++ []) = String.mk data
    rw [List.append_nil]

/-! ## Claim theorems -/

/-- C8: for every raw default string of a boolean-typed column the default
parser never returns unparseable — it returns the boolean literal `true`
exactly when the raw text is `"true"` and `false` for any other text,
malformed input included. -/
theorem boolean_default_total (value : String) (enums : Enums) :
    parseDefaultValue value "boolean" enums = some (.bool (value == "true")) := by
  unfold parseDefaultValue
  have h1 : numericFamily.contains "boolean" = false := by decide
  rw [h1]
  simp

/-- C3 (code bug, evaluation at the failing inputs): the index.js mapper
mishandles the documented types `uuid` and fixed-length `character` — its
fallback arm calls the nonexistent `chalk.warn` and throws a `TypeError`
that aborts the run (the `return "z.unknown()"` behind it is unreachable)
— while the db.js-variant mapper maps both as the README's support table
documents, and that variant's fallback (logging through the valid
`chalk.yellow`) genuinely returns `z.unknown()` for an undocumented type
such as `json`. -/
theorem documented_types_fallback_eval :
    IndexJs.getTypeForDataType "uuid" [] "token" "uuid" =
      .error "TypeError: chalk.warn is not a function" ∧
    IndexJs.getTypeForDataType "character" [] "code" "bpchar" =
      .error "TypeError: chalk.warn is not a function" ∧
    DbJs.getTypeForDataType "uuid" [] "token" "uuid" none = .ok "zodUUID('Token')" ∧
    DbJs.getTypeForDataType "character" [] "code" "bpchar" (some 5) =
      .ok "z.string().length(5, 'Code must be 5 characters long')" ∧
    DbJs.getTypeForDataType "json" [] "payload" "json" none = .ok "z.unknown()" :=
  ⟨rfl, rfl, rfl, rfl, rfl⟩

/-- C4 counterexample: `toReadableLabel("user_id")` is `"User "` with a
trailing space (stripping `id` leaves `"user_"`, whose split produces a
trailing empty word), not `"User"` as the claim states. -/
theorem readable_label_user_id_not_User :
    getReadableNameFromSnakeCase "user_id" = "User " ∧
    getReadableNameFromSnakeCase "user_id" ≠ "User" :=
  ⟨by decide, by decide⟩

/-- C4 (amended): for a name ending in `id` (case-insensitively) whose
two-character-stripped remainder has no surrounding whitespace, the label
is exactly the remainder split on underscores, each word capitalized,
joined by single spaces (empty words included — hence
`toReadableLabel("user_id") = "User "`); and
`toReadableLabel("first_name") = "First Name"`. -/
theorem readable_label_amended :
    (∀ s : String, strEndsWith (toLowerStr s) "id" = true →
      trimChars (dropRightStr s 2).data = (dropRightStr s 2).data →
      getReadableNameFromSnakeCase s =
        joinWith " " ((splitListOn '_' (dropRightStr s 2).data).map
          (fun w => capitalizeFirstLetter (String.mk w)))) ∧
    getReadableNameFromSnakeCase "user_id" = "User " ∧
    getReadableNameFromSnakeCase "first_name" = "First Name" := by
  refine ⟨?_, by decide, by decide⟩
  intro s h1 h2
  unfold getReadableNameFromSnakeCase
  rw [if_pos h1]
  simp only [h2]

/-- Witness for C4's amended claim at `"user_id"`. -/
theorem readable_label_amended_witness :
    getReadableNameFromSnakeCase "user_id" =
      joinWith " " ((splitListOn '_' (dropRightStr "user_id" 2).data).map
        (fun w => capitalizeFirstLetter (String.mk w))) :=
  readable_label_amended.1 "user_id" (by decide) (by decide)

/-- C1 counterexample: an enum column with no raw default is assembled as
the bare enum construct — the first-label default the claim asserts is not
synthesized (the mapper arm that would synthesize it is unreachable from
the assembler for enum columns). -/
theorem enum_no_default_not_synthesized :
    buildColumnType [("status", ["active", "inactive"])]
        ⟨"state", "USER-DEFINED", "NO", none, "status", "NO"⟩ =
      .ok "z.enum(['active', 'inactive'])" ∧
    ("z.enum(['active', 'inactive'])" : String) ≠
      "z.enum(['active', 'inactive']).default('active')" :=
  ⟨rfl, by decide⟩

/-- C1 (amended): an enum-registered column with raw default
`"'active'::status"` assembles to the enum construct over the registry's
ordered labels with default literal `'active'`; with no raw default the
assembled expression is the bare enum construct, with no synthesized
default. -/
theorem enum_column_assembled_expression :
    (∀ (enums : Enums) (c : Column) (labels : List String),
      enumLookup enums c.udt_name = some labels →
      c.column_default = none →
      c.is_nullable = "NO" →
      buildColumnType enums c =
        .ok ("z.enum([" ++ joinWith ", " (labels.map (fun v => "'" ++ v ++ "'")) ++ "])")) ∧
    buildColumnType [("status", ["active", "inactive"])]
        ⟨"state", "USER-DEFINED", "NO", some "'active'::status", "status", "NO"⟩ =
      .ok "z.enum(['active', 'inactive']).default('active')" := by
  refine ⟨?_, rfl⟩
  intro enums c labels hl hd hn
  have hyes : (c.is_nullable == "YES") = false := by
    rw [hn]
    decide
  simp only [buildColumnType, columnBaseType, hl, hd, hyes, Bool.false_eq_true, if_false]

/-- Witness for C1's amended claim: the no-default arm at a concrete enum
column. -/
theorem enum_column_assembled_expression_witness :
    buildColumnType [("status", ["active", "inactive"])]
        ⟨"state", "USER-DEFINED", "NO", none, "status", "NO"⟩ =
      .ok ("z.enum([" ++
        joinWith ", " (["active", "inactive"].map (fun v => "'" ++ v ++ "'")) ++ "])") :=
  enum_column_assembled_expression.1 _ _ ["active", "inactive"] (by decide) rfl rfl

/-- C2 counterexample: the assembler sorts with `localeCompare`, not
ordinal comparison — included columns `a_z` and `ab` (keys `aZ` and `ab`)
assemble in the order `[ab, aZ]`, an adjacent pair on which ordinal
comparison fails (`leChars "ab" "aZ" = false`, i.e. ordinally
`aZ < ab`), so the result is not ordered by ordinal string comparison as
the claim states. -/
theorem assembled_order_not_ordinal :
    (assembleEntries false false []
      [⟨"a_z", "text", "NO", none, "t1", "NO"⟩,
       ⟨"ab", "text", "NO", none, "t2", "NO"⟩]).map (fun l => l.map (fun e => e.key)) =
      .ok ["ab", "aZ"] ∧
    leChars "ab".data "aZ".data = false :=
  ⟨rfl, rfl⟩

/-- C2 (amended): a successful assembly places the identity entry (if any)
first, and the remaining entries ascend by camelCase field name under the
locale comparison the source actually uses (`localeCompare`, modelled by
ICU sort keys — not ordinal comparison, from which it differs on
mixed-case keys); the claim's concrete instance holds: included columns
zeta (identity), alpha, mike assemble in the order [zeta, alpha, mike]. -/
theorem assembled_entries_identity_first_sorted :
    (∀ (excludeDefaults includeNullable : Bool) (enums : Enums)
       (rows : List Column) (p : Option FieldEntry × List FieldEntry),
      collectLoop excludeDefaults includeNullable enums (none, []) rows = .ok p →
      assembleEntries excludeDefaults includeNullable enums rows =
        .ok (p.1.toList ++ List.insertionSort entryLE p.2) ∧
      List.Sorted entryLE (List.insertionSort entryLE p.2) ∧
      List.Perm (List.insertionSort entryLE p.2) p.2) ∧
    (assembleEntries false false []
      [⟨"mike", "text", "NO", none, "m", "NO"⟩,
       ⟨"zeta", "integer", "NO", none, "z", "YES"⟩,
       ⟨"alpha", "text", "NO", none, "a", "NO"⟩]).map (fun l => l.map (fun e => e.key)) =
      .ok ["zeta", "alpha", "mike"] := by
  constructor
  · intro ed inc enums rows p h
    exact ⟨assembleEntries_ok h, List.sorted_insertionSort entryLE _,
      List.perm_insertionSort entryLE _⟩
  · rfl

/-- Witness for C2's amended claim at the zeta/alpha/mike table. -/
theorem assembled_entries_identity_first_sorted_witness :
    assembleEntries false false []
      [⟨"mike", "text", "NO", none, "m", "NO"⟩,
       ⟨"zeta", "integer", "NO", none, "z", "YES"⟩,
       ⟨"alpha", "text", "NO", none, "a", "NO"⟩] =
      .ok ([(⟨"zeta", "z.number().gt(0, 'Zeta is required')"⟩ : FieldEntry)] ++
        List.insertionSort entryLE
          [(⟨"mike", "z.string().min(1, 'Mike is required')"⟩ : FieldEntry),
           ⟨"alpha", "z.string().min(1, 'Alpha is required')"⟩]) ∧
    List.Sorted entryLE (List.insertionSort entryLE
      [(⟨"mike", "z.string().min(1, 'Mike is required')"⟩ : FieldEntry),
       ⟨"alpha", "z.string().min(1, 'Alpha is required')"⟩]) ∧
    List.Perm
      (List.insertionSort entryLE
        [(⟨"mike", "z.string().min(1, 'Mike is required')"⟩ : FieldEntry),
         ⟨"alpha", "z.string().min(1, 'Alpha is required')"⟩])
      [(⟨"mike", "z.string().min(1, 'Mike is required')"⟩ : FieldEntry),
       ⟨"alpha", "z.string().min(1, 'Alpha is required')"⟩] :=
  assembled_entries_identity_first_sorted.1 false false []
    [⟨"mike", "text", "NO", none, "m", "NO"⟩,
     ⟨"zeta", "integer", "NO", none, "z", "YES"⟩,
     ⟨"alpha", "text", "NO", none, "a", "NO"⟩]
    (some ⟨"zeta", "z.number().gt(0, 'Zeta is required')"⟩,
     [⟨"mike", "z.string().min(1, 'Mike is required')"⟩,
      ⟨"alpha", "z.string().min(1, 'Alpha is required')"⟩]) rfl

/-- C5 counterexample: a column that passes both filters (a non-nullable,
default-less `uuid` column) is nonetheless NOT included — the index.js
mapper throws and the table's assembly aborts with no result — so
"included if and only if not filtered" fails on the code. -/
theorem filter_passing_column_can_abort :
    processColumn false false [] ⟨"token", "uuid", "NO", none, "uuid", "NO"⟩ =
      .error "TypeError: chalk.warn is not a function" ∧
    assembleEntries false false [] [⟨"token", "uuid", "NO", none, "uuid", "NO"⟩] =
      .error "TypeError: chalk.warn is not a function" :=
  ⟨rfl, rfl⟩

/-- C5 (amended): a column is skipped (processed to nothing) exactly when
a filter rejects it — the exclude-defaults policy over a non-null default,
or nullability without the include-nullable policy; a filter-surviving
column yields an entry exactly when its type maps without throwing (a
filter-surviving column of unsupported type instead aborts the whole
table); and every entry of a successful assembly comes from a processed
column — in particular a nullable, default-less column never appears when
`includeNullable` is off. -/
theorem column_inclusion :
    ∀ (excludeDefaults includeNullable : Bool) (enums : Enums),
      (∀ c : Column,
        processColumn excludeDefaults includeNullable enums c = .ok none ↔
          ((excludeDefaults = true ∧ c.column_default.isSome = true) ∨
            (¬c.is_nullable = "NO" ∧ ¬includeNullable = true))) ∧
      (∀ c : Column,
        (∃ e, processColumn excludeDefaults includeNullable enums c = .ok (some e)) ↔
          (¬(excludeDefaults = true ∧ c.column_default.isSome = true) ∧
            (c.is_nullable = "NO" ∨ includeNullable = true) ∧
            ∃ t, buildColumnType enums c = .ok t)) ∧
      (∀ (rows : List Column) (result : List FieldEntry) (e : FieldEntry),
        assembleEntries excludeDefaults includeNullable enums rows = .ok result →
        e ∈ result →
        ∃ c ∈ rows, processColumn excludeDefaults includeNullable enums c =
          .ok (some e)) := by
  intro ed inc enums
  refine ⟨?_, ?_, ?_⟩
  · intro c
    unfold processColumn
    by_cases h1 : (ed && c.column_default.isSome) = true
    · rw [if_pos h1]
      simp only [Bool.and_eq_true] at h1
      simp [h1.1, h1.2]
    · rw [if_neg h1]
      simp only [Bool.and_eq_true] at h1
      by_cases h2 : (c.is_nullable == "NO" || inc) = true
      · rw [if_pos h2]
        simp only [Bool.or_eq_true, beq_iff_eq] at h2
        cases hb : buildColumnType enums c with
        | ok t =>
          constructor
          · intro hcontra
            exact absurd (Except.ok.inj hcontra) (by simp)
          · intro hrhs
            rcases hrhs with hl | ⟨hno, hinc⟩
            · exact absurd hl h1
            · rcases h2 with h2 | h2
              · exact absurd h2 hno
              · exact absurd h2 hinc
        | error err =>
          constructor
          · intro hcontra
            exact Except.noConfusion hcontra
          · intro hrhs
            rcases hrhs with hl | ⟨hno, hinc⟩
            · exact absurd hl h1
            · rcases h2 with h2 | h2
              · exact absurd h2 hno
              · exact absurd h2 hinc
      · rw [if_neg h2]
        simp only [Bool.or_eq_true, beq_iff_eq] at h2
        constructor
        · intro _
          exact Or.inr (not_or.mp h2)
        · intro _
          rfl
  · intro c
    unfold processColumn
    by_cases h1 : (ed && c.column_default.isSome) = true
    · rw [if_pos h1]
      simp only [Bool.and_eq_true] at h1
      constructor
      · rintro ⟨e, he⟩
        exact absurd (Except.ok.inj he) (by simp)
      · rintro ⟨hne, _, _⟩
        exact absurd ⟨h1.1, h1.2⟩ hne
    · rw [if_neg h1]
      simp only [Bool.and_eq_true] at h1
      by_cases h2 : (c.is_nullable == "NO" || inc) = true
      · rw [if_pos h2]
        have h2p : c.is_nullable = "NO" ∨ inc = true := by
          simpa [Bool.or_eq_true, beq_iff_eq] using h2
        cases hb : buildColumnType enums c with
        | ok t =>
          constructor
          · intro _
            exact ⟨h1, h2p, t, rfl⟩
          · intro _
            exact ⟨⟨camelCase c.column_name, t⟩, rfl⟩
        | error err =>
          constructor
          · rintro ⟨e, he⟩
            exact Except.noConfusion he
          · rintro ⟨_, _, t, ht⟩
            exact Except.noConfusion ht
      · rw [if_neg h2]
        simp only [Bool.or_eq_true, beq_iff_eq] at h2
        have h2p := not_or.mp h2
        constructor
        · rintro ⟨e, he⟩
          exact absurd (Except.ok.inj he) (by simp)
        · rintro ⟨_, hor, _⟩
          rcases hor with h | h
          · exact absurd h h2p.1
          · exact absurd h h2p.2
  · intro rows result e h he
    exact mem_assembleEntries h he

/-- Witness for C5's amended claim: with `includeNullable = false` a
nullable, default-less column is filtered out. -/
theorem column_inclusion_witness :
    ¬∃ e, processColumn false false [] ⟨"note", "text", "YES", none, "t", "NO"⟩ =
      .ok (some e) := fun hex => by
  rcases ((column_inclusion false false []).2.1
      ⟨"note", "text", "YES", none, "t", "NO"⟩).mp hex with ⟨_, hor, _⟩
  rcases hor with h | h <;> simp at h

/-- C6 counterexample: an included column of unsupported type with an
unparseable default (`uuid` with default `foo` — inside the claim's scope)
does NOT proceed without a default wrapper: index.js throws in the type
mapper before the default parser runs, the column never appears, and the
single column aborts the whole table's assembly. -/
theorem unparseable_default_with_unsupported_type_aborts :
    parseDefaultValue "foo" "uuid" [] = none ∧
    assembleEntries false false []
      [⟨"token", "uuid", "NO", some "foo", "uuid", "NO"⟩] =
      .error "TypeError: chalk.warn is not a function" :=
  ⟨by decide, rfl⟩

/-- C6 (amended): an included column whose base type maps successfully and
whose raw default is unparseable still yields its entry, carrying the base
expression (plus the optional wrapper when nullable) and no default
wrapper — the parse failure itself is non-fatal and the entry appears in
any successful assembly; a column of unsupported type instead aborts the
table before the parser runs (the abort is caused by the type, not the
default). -/
theorem unparseable_default_nonfatal :
    ∀ (includeNullable : Bool) (enums : Enums) (rows : List Column) (c : Column)
      (d t : String),
      c ∈ rows →
      c.column_default = some d →
      parseDefaultValue d c.data_type enums = none →
      (c.is_nullable = "NO" ∨ includeNullable = true) →
      c.is_identity ≠ "YES" →
      columnBaseType enums c = .ok t →
      processColumn false includeNullable enums c =
        .ok (some ⟨camelCase c.column_name,
          t ++ (if c.is_nullable == "YES" then ".optional()" else "")⟩) ∧
      ∀ result : List FieldEntry,
        assembleEntries false includeNullable enums rows = .ok result →
        (⟨camelCase c.column_name,
          t ++ (if c.is_nullable == "YES" then ".optional()" else "")⟩ : FieldEntry) ∈
          result := by
  intro inc enums rows c d t hmem hd hparse hnul hid hbase
  have hbuild : buildColumnType enums c =
      .ok (t ++ (if c.is_nullable == "YES" then ".optional()" else "")) := by
    unfold buildColumnType
    rw [hbase]
    simp only [hd, hparse]
    cases hyes : (c.is_nullable == "YES") with
    | true => simp [hyes]
    | false => simp [hyes, strAppend_empty]
  have hproc : processColumn false inc enums c =
      .ok (some ⟨camelCase c.column_name,
        t ++ (if c.is_nullable == "YES" then ".optional()" else "")⟩) := by
    unfold processColumn
    have h2 : (c.is_nullable == "NO" || inc) = true := by
      rcases hnul with h | h
      · simp [h]
      · simp [h]
    simp only [Bool.false_and, Option.isSome_none, Bool.false_eq_true, if_false,
      h2, if_true, hbuild]
  refine ⟨hproc, ?_⟩
  intro result hres
  obtain ⟨p, hcl, hres2⟩ := assembleEntries_ok_inv hres
  subst hres2
  exact mem_assembleEntries_of hcl hmem hproc (beq_eq_false_iff_ne.mpr hid)

/-- Witness for C6's amended claim: an integer column with the unparseable
default `foo` keeps its base expression and reaches the assembled
result. -/
theorem unparseable_default_nonfatal_witness :
    processColumn false false [] ⟨"amount", "integer", "NO", some "foo", "int4", "NO"⟩ =
      .ok (some ⟨camelCase "amount",
        "z.number().gt(0, 'Amount is required')" ++
          (if ("NO" : String) == "YES" then ".optional()" else "")⟩) ∧
    (⟨camelCase "amount",
      "z.number().gt(0, 'Amount is required')" ++
        (if ("NO" : String) == "YES" then ".optional()" else "")⟩ : FieldEntry) ∈
      [(⟨"amount", "z.number().gt(0, 'Amount is required')"⟩ : FieldEntry)] := by
  have h := unparseable_default_nonfatal false []
    [⟨"amount", "integer", "NO", some "foo", "int4", "NO"⟩]
    ⟨"amount", "integer", "NO", some "foo", "int4", "NO"⟩ "foo"
    "z.number().gt(0, 'Amount is required')"
    (by simp) rfl (by decide) (Or.inl rfl) (by decide) rfl
  exact ⟨h.1, h.2 [⟨"amount", "z.number().gt(0, 'Amount is required')"⟩] rfl⟩

/-- C7: for every numeric-family column type, a quoted-cast default
`'<n>'::<typename>` and the bare default `<n>` parse to the same numeric
literal — the captured text is identical, so the produced `Number` is too;
in particular `"'5'::integer"` and `"5"` both yield `5`. -/
theorem numeric_default_quoted_matches_bare :
    ∀ (s ty dataType : String) (enums : Enums),
      numericFamily.contains dataType = true →
      numberListOk s.data = true →
      ty.data ≠ [] →
      ty.data.all isWordChar = true →
      parseDefaultValue ("'" ++ s ++ "'::" ++ ty) dataType enums =
        some (.num s) ∧
      parseDefaultValue s dataType enums = some (.num s) := by
  intro s ty dt enums hdt hs hty htyw
  have hdata : ("'" ++ s ++ "'::" ++ ty).data =
      '\'' :: (s.data ++ '\'' :: ':' :: ':' :: ty.data) := by
    have h1 : ("'" : String).data = ['\''] := rfl
    have h2 : ("'::" : String).data = ['\'', ':', ':'] := rfl
    simp [String.data_append, h1, h2]
  constructor
  · unfold parseDefaultValue
    rw [if_pos hdt, hdata, matchQuotedNumberList_quoted hs hty htyw]
  · unfold parseDefaultValue
    rw [if_pos hdt, matchQuotedNumberList_bare hs]
    simp [hs]

/-- Witness for C7 at `"'5'::integer"` and `"5"`. -/
theorem numeric_default_quoted_matches_bare_witness :
    parseDefaultValue ("'" ++ "5" ++ "'::" ++ "integer") "integer" [] =
      some (.num "5") ∧
    parseDefaultValue "5" "integer" [] = some (.num "5") :=
  numeric_default_quoted_matches_bare "5" "integer" "integer" []
    (by decide) (by decide) (by decide) (by decide)

/-- C9: the exclude-defaults filter runs before the identity check — when
every identity column of the table carries a non-null raw default and the
policy is active, those columns are excluded, the identity slot of a
successful run stays empty, and the assembled result is the plain sorted
entry list with no pinned entry. -/
theorem identity_not_pinned_when_defaults_excluded :
    ∀ (includeNullable : Bool) (enums : Enums) (rows : List Column)
      (p : Option FieldEntry × List FieldEntry),
      (∀ c ∈ rows, c.is_identity = "YES" → c.column_default.isSome = true) →
      collectLoop true includeNullable enums (none, []) rows = .ok p →
      p.1 = none ∧
      assembleEntries true includeNullable enums rows =
        .ok (List.insertionSort entryLE p.2) := by
  intro inc enums rows p hall hcl
  have hnone : p.1 = none := by
    apply collectLoop_fst_none rows (none, []) p ?_ hcl rfl
    intro c hc hid
    have hd : c.column_default.isSome = true := hall c hc (by simpa using hid)
    unfold processColumn
    simp [hd]
  refine ⟨hnone, ?_⟩
  have h2 := assembleEntries_ok hcl
  rw [hnone] at h2
  simpa using h2

/-- Witness for C9 at a concrete table whose identity column has a
default. -/
theorem identity_not_pinned_witness :
    ((none : Option FieldEntry),
      [(⟨"alpha", "z.string().min(1, 'Alpha is required')"⟩ : FieldEntry)]).1 = none ∧
    assembleEntries true false []
      [⟨"zeta", "integer", "NO", some "1", "int4", "YES"⟩,
       ⟨"alpha", "text", "NO", none, "t", "NO"⟩] =
      .ok (List.insertionSort entryLE
        ((none : Option FieldEntry),
          [(⟨"alpha", "z.string().min(1, 'Alpha is required')"⟩ : FieldEntry)]).2) :=
  identity_not_pinned_when_defaults_excluded false []
    [⟨"zeta", "integer", "NO", some "1", "int4", "YES"⟩,
     ⟨"alpha", "text", "NO", none, "t", "NO"⟩]
    ((none : Option FieldEntry),
      [(⟨"alpha", "z.string().min(1, 'Alpha is required')"⟩ : FieldEntry)])
    (by decide) rfl

/-- C10: a raw default of an unrecognized sqlType that ends in
`::<registered enum type>` but contains no single quote makes the parser
return the literal text `'undefined'` (the JS stringification of the
missing capture, wrapped in quotes) instead of signalling unparseable. -/
theorem enum_cast_without_quote_undefined_literal :
    ∀ (value dataType : String) (enums : Enums),
      numericFamily.contains dataType = false →
      dataType ≠ "boolean" →
      dataType ≠ "character varying" →
      dataType ≠ "text" →
      dataType ≠ "date" →
      dataType ≠ "timestamp with time zone" →
      (∃ p ∈ enums, strEndsWith value ("::" ++ p.1) = true) →
      '\'' ∉ value.data →
      parseDefaultValue value dataType enums = some (.str "'undefined'") := by
  intro v dt enums h1 h2 h3 h4 h5 h6 hex hq
  have hb2 : (dt == "boolean") = false := beq_eq_false_iff_ne.mpr h2
  have hb3 : (dt == "character varying") = false := beq_eq_false_iff_ne.mpr h3
  have hb4 : (dt == "text") = false := beq_eq_false_iff_ne.mpr h4
  have hb5 : (dt == "date") = false := beq_eq_false_iff_ne.mpr h5
  have hb6 : (dt == "timestamp with time zone") = false := beq_eq_false_iff_ne.mpr h6
  obtain ⟨p, hp, hpe⟩ := hex
  have hfind : ∃ q, enums.find? (fun r => strEndsWith v ("::" ++ r.1)) = some q := by
    cases hf : enums.find? (fun r => strEndsWith v ("::" ++ r.1)) with
    | some q => exact ⟨q, rfl⟩
    | none =>
      have hnone := List.find?_eq_none.mp hf p hp
      exact absurd hpe (by simpa using hnone)
  obtain ⟨q, hq2⟩ := hfind
  unfold parseDefaultValue
  simp only [h1, hb2, hb3, hb4, hb5, hb6, Bool.or_self, Bool.false_eq_true, if_false,
    Bool.false_or, Bool.or_false, hq2, splitListOn_of_not_mem hq]
  rfl

/-- Witness for C10 at `"x::status"` with an unrecognized sqlType. -/
theorem enum_cast_without_quote_undefined_literal_witness :
    parseDefaultValue "x::status" "uuid" [("status", ["active", "inactive"])] =
      some (.str "'undefined'") :=
  enum_cast_without_quote_undefined_literal "x::status" "uuid" _
    (by decide) (by decide) (by decide) (by decide) (by decide) (by decide)
    ⟨("status", ["active", "inactive"]), by decide, by decide⟩ (by decide)


end Pgtozod
